import Mathlib

/-!
Verification development for the artman configuration-resolution pipeline.

The definitions below are shallow embeddings of the Python sources:
  * `merge`, `replace_vars`           from artman/utils/config_util.py
  * `load_artifact_config` and its
    validation / normalization helpers from artman/config/loader.py
  * the legacy-config converter        from artman/cli/converter.py

YAML data is modelled by the inductive `Value` (mappings are association
lists preserving insertion order, matching Python 3.7+ dict semantics).
Python exceptions are modelled with `Except`.
-/

namespace Artman

/-- Decidable equality for modelled Python exceptions, so that concrete
runs of the embedded functions can be checked by evaluation. -/
instance {ε α : Type} [DecidableEq ε] [DecidableEq α] :
    DecidableEq (Except ε α) := fun x y =>
  match x, y with
  | .ok a, .ok b =>
    if h : a = b then .isTrue (h ▸ rfl) else .isFalse (fun hc => h (Except.ok.inj hc))
  | .error a, .error b =>
    if h : a = b then .isTrue (h ▸ rfl) else .isFalse (fun hc => h (Except.error.inj hc))
  | .ok _, .error _ => .isFalse (fun hc => Except.noConfusion hc)
  | .error _, .ok _ => .isFalse (fun hc => Except.noConfusion hc)

/-- Literal character constants used when building variable tokens, written
via code points to keep string literals simple. -/
def dollarC : Char := Char.ofNat 36

/-- Opening curly brace character. -/
def obrC : Char := Char.ofNat 123

/-- Closing curly brace character. -/
def cbrC : Char := Char.ofNat 125

/-- A YAML/JSON-like value, as produced by `yaml.load` in the Python source.
Mappings are association lists in insertion order; Python `set` values are
kept as a separate constructor because `merge` treats them specially. -/
inductive Value where
  | str (s : String)
  | int (n : Int)
  | bool (b : Bool)
  | null
  | seq (xs : List Value)
  | set (xs : List Value)
  | map (entries : List (String × Value))
  deriving Repr

mutual

/-- Boolean equality on values, mirroring Python `__eq__` on the parsed
YAML data (used for set membership in `merge`). -/
def beqValue : Value → Value → Bool
  | .str a, .str b => a == b
  | .int a, .int b => a == b
  | .bool a, .bool b => a == b
  | .null, .null => true
  | .seq a, .seq b => beqValueL a b
  | .set a, .set b => beqValueL a b
  | .map a, .map b => beqValueM a b
  | _, _ => false

/-- Elementwise boolean equality of value lists. -/
def beqValueL : List Value → List Value → Bool
  | [], [] => true
  | x :: xs, y :: ys => beqValue x y && beqValueL xs ys
  | _, _ => false

/-- Elementwise boolean equality of association lists. -/
def beqValueM : List (String × Value) → List (String × Value) → Bool
  | [], [] => true
  | (k1, v1) :: xs, (k2, v2) :: ys => k1 == k2 && beqValue v1 v2 && beqValueM xs ys
  | _, _ => false

end

/-- Python dictionaries are modelled as ordered association lists. -/
abbrev Dict := List (String × Value)

/-- Lookup of a key in an association list (first binding wins, as in a
Python dict where keys are unique). -/
def lookupD (m : Dict) (k : String) : Option Value :=
  match m with
  | [] => none
  | (k1, v1) :: rest => if k1 = k then some v1 else lookupD rest k

/-- In-place update `answer[k] = v` of a Python dict: the key keeps its
original position; an absent key is appended at the end. -/
def setKey (m : Dict) (k : String) (v : Value) : Dict :=
  match m with
  | [] => [(k, v)]
  | (k1, v1) :: rest => if k1 = k then (k, v) :: rest else (k1, v1) :: setKey rest k v

/-- Union of two Python sets, modelled on lists: elements of the left
operand followed by the right-operand elements not already present.  The
claims under study never depend on set ordering. -/
def setUnion (xs ys : List Value) : List Value :=
  xs ++ ys.filter (fun y => !(xs.any (beqValue y)))

/-- Message of the `ValueError` raised by `merge` for a list/non-list clash
(config_util.py line 75). -/
def listNonListMsg : String := "Attempt to merge a list and non-list."

/-- Message of the `ValueError` raised by `merge` for a set/non-set clash
(config_util.py line 82). -/
def setNonSetMsg : String := "Attempt to merge a set and non-set."

/-- Message of the `ValueError` raised by `merge` for a dict/non-dict clash
(config_util.py line 90). -/
def dictNonDictMsg : String := "Attempt to merge a dict and non-dict."

/-- One pass of `merge`'s inner loop: fold the entries of a source
dictionary into the accumulator `answer`, mirroring config_util.py lines
63-97.  The branch order (list, set, dict, overwrite) is exactly the
source's `isinstance` chain; a type clash raises `ValueError`, modelled as
`Except.error` with the source's message. -/
def mergeTwo : Dict → Dict → Except String Dict
  | answer, [] => .ok answer
  | answer, (k, v) :: rest =>
    match lookupD answer k with
    | none => mergeTwo (answer ++ [(k, v)]) rest
    | some old =>
      match old, v with
      | .seq xs, .seq ys => mergeTwo (setKey answer k (.seq (xs ++ ys))) rest
      | .seq _, _ => .error listNonListMsg
      | .set xs, .set ys => mergeTwo (setKey answer k (.set (setUnion xs ys))) rest
      | .set _, _ => .error setNonSetMsg
      | .map m1, .map m2 =>
        match mergeTwo m1 m2 with
        | .ok merged => mergeTwo (setKey answer k (.map merged)) rest
        | .error e => .error e
      | .map _, _ => .error dictNonDictMsg
      | _, _ => mergeTwo (setKey answer k v) rest
  termination_by _ src => sizeOf src
  decreasing_by all_goals (simp_wf <;> omega)

/-- Outer loop of `merge(*dictionaries)`: fold the source dictionaries
left to right into the accumulator, aborting on the first type clash. -/
def mergeGo (answer : Dict) : List Dict → Except String Dict
  | [] => .ok answer
  | d :: ds =>
    match mergeTwo answer d with
    | .ok a2 => mergeGo a2 ds
    | .error e => .error e

/-- The variadic `merge(*dictionaries)` of config_util.py: fold every
source dictionary into an initially empty accumulator. -/
def merge (ds : List Dict) : Except String Dict :=
  mergeGo [] ds

/-- Container kinds distinguished by `merge`'s `isinstance` dispatch. -/
inductive CKind where
  | list
  | set
  | dict
  deriving DecidableEq, Repr

/-- The container kind of a value, if it is a container. -/
def ckindOf : Value → Option CKind
  | .seq _ => some .list
  | .set _ => some .set
  | .map _ => some .dict
  | _ => none

/-- The fixed `ValueError` message produced for a clash on a container of
the given kind. -/
def mismatchMsg : CKind → String
  | .list => listNonListMsg
  | .set => setNonSetMsg
  | .dict => dictNonDictMsg

/-- Strip a pattern from the front of a character list, returning the
remainder on success.  Used to model Python substring matching. -/
def stripPat : List Char → List Char → Option (List Char)
  | [], s => some s
  | _ :: _, [] => none
  | p :: ps, c :: cs => if p = c then stripPat ps cs else none

/-- Whether `pat` occurs as a contiguous substring of `s`. -/
def occursIn (pat : List Char) : List Char → Bool
  | [] => pat.isEmpty
  | c :: cs => (stripPat pat (c :: cs)).isSome || occursIn pat cs

/-- Core loop of Python `str.replace`: scan left to right, replacing each
leftmost non-overlapping occurrence of the pattern `p :: ps` by `rep`. -/
def replGo (p : Char) (ps rep : List Char) : List Char → List Char
  | [] => []
  | c :: cs =>
    match h : stripPat (p :: ps) (c :: cs) with
    | some rest => rep ++ replGo p ps rep rest
    | none => c :: replGo p ps rep cs
  termination_by s => s.length
  decreasing_by
    · have hlen : ∀ pat s rest : List Char, stripPat pat s = some rest →
          rest.length + pat.length = s.length := by
        intro pat
        induction pat with
        | nil =>
          intro s rest hsome
          simp only [stripPat, Option.some.injEq] at hsome
          subst hsome
          simp
        | cons q qs ih =>
          intro s rest hsome
          cases s with
          | nil => simp [stripPat] at hsome
          | cons d ds =>
            simp only [stripPat] at hsome
            by_cases hqd : q = d
            · rw [if_pos hqd] at hsome
              have := ih ds rest hsome
              simp only [List.length_cons]
              omega
            · rw [if_neg hqd] at hsome
              cases hsome
      have := hlen _ _ _ h
      simp_all
      omega
    · simp

/-- Python `value.replace(pat, rep)` on character lists.  All patterns
used by the source (variable tokens, path-prefix tokens) are non-empty;
the empty-pattern case (where Python would interleave `rep` everywhere)
is never exercised and returns the input unchanged. -/
def replChars (pat rep s : List Char) : List Char :=
  match pat with
  | [] => s
  | p :: ps => replGo p ps rep s

/-- Python `s.replace(pat, rep)` at the `String` level. -/
def pyReplace (s pat rep : String) : String := ⟨replChars pat.data rep.data s.data⟩

/-- The token `'${' + k + '}'` built by `replace_vars` for a key `k`
(config_util.py line 111). -/
def varTok (k : String) : String := ⟨dollarC :: obrC :: (k.data ++ [cbrC])⟩

mutual

/-- The `replace_vars(data, repl_vars)` function of config_util.py lines
100-118: strings get every `${KEY}` token replaced sequentially, one
`str.replace` per map entry in insertion order; sequences and mappings are
rebuilt recursively (keys untouched); everything else — including Python
sets, which are neither `collections.Sequence` nor `collections.Mapping` —
is returned unchanged. -/
def replace_vars (repl : List (String × String)) : Value → Value
  | .str s => .str (repl.foldl (fun acc kv => pyReplace acc (varTok kv.1) kv.2) s)
  | .seq xs => .seq (replaceVarsL repl xs)
  | .map es => .map (replaceVarsM repl es)
  | .int n => .int n
  | .bool b => .bool b
  | .null => .null
  | .set xs => .set xs

/-- Recursive rebuild of a sequence (the list comprehension on line 114). -/
def replaceVarsL (repl : List (String × String)) : List Value → List Value
  | [] => []
  | x :: xs => replace_vars repl x :: replaceVarsL repl xs

/-- Recursive rebuild of a mapping's values (line 116); keys untouched. -/
def replaceVarsM (repl : List (String × String)) :
    List (String × Value) → List (String × Value)
  | [] => []
  | e :: es => (e.1, replace_vars repl e.2) :: replaceVarsM repl es

end

/-- Well-formed strings over a key set: a concatenation of non-dollar
literal characters and complete `${k}` tokens with `k` drawn from `ks`. -/
inductive WFStr (ks : List String) : List Char → Prop where
  | nil : WFStr ks []
  | lit {c : Char} {cs : List Char} : c ≠ dollarC → WFStr ks cs → WFStr ks (c :: cs)
  | tok {k : String} {cs : List Char} : k ∈ ks → WFStr ks cs →
      WFStr ks (dollarC :: obrC :: (k.data ++ cbrC :: cs))

/-- A replacement-map key free of the token delimiter characters. -/
abbrev cleanKey (k : String) : Prop :=
  ∀ c ∈ k.data, c ≠ dollarC ∧ c ≠ obrC ∧ c ≠ cbrC

/-- A replacement-map value that cannot reintroduce a variable token. -/
abbrev cleanVal (v : String) : Prop := ∀ c ∈ v.data, c ≠ dollarC

/-- Character-level form of the sequential substitution fold. -/
def substAllChars (repl : List (String × String)) (s : List Char) : List Char :=
  repl.foldl (fun acc kv => replChars (varTok kv.1).data kv.2.data acc) s

mutual

/-- No dollar character occurs in any string in value position (mapping
keys are excluded: `replace_vars` never rewrites them). -/
def noDollarV : Value → Bool
  | .str s => s.data.all (fun c => c != dollarC)
  | .int _ => true
  | .bool _ => true
  | .null => true
  | .seq xs => noDollarVL xs
  | .set xs => noDollarVL xs
  | .map es => noDollarVM es

/-- List version of `noDollarV`. -/
def noDollarVL : List Value → Bool
  | [] => true
  | x :: xs => noDollarV x && noDollarVL xs

/-- Association-list version of `noDollarV` (values only). -/
def noDollarVM : List (String × Value) → Bool
  | [] => true
  | e :: es => noDollarV e.2 && noDollarVM es

end

/-- Values whose strings are well-formed over the key set `ks`: every
dollar character opens a complete `${k}` token with `k ∈ ks`.  Mapping
keys and set elements are never substituted, so set elements are required
to be token-free outright (mapping keys are unrestricted but excluded from
the conclusion). -/
inductive WFV (ks : List String) : Value → Prop where
  | str {s : String} : WFStr ks s.data → WFV ks (.str s)
  | int (n : Int) : WFV ks (.int n)
  | bool (b : Bool) : WFV ks (.bool b)
  | null : WFV ks .null
  | set {xs : List Value} : (∀ x ∈ xs, noDollarV x = true) → WFV ks (.set xs)
  | seq {xs : List Value} : (∀ x ∈ xs, WFV ks x) → WFV ks (.seq xs)
  | map {es : List (String × Value)} : (∀ e ∈ es, WFV ks e.2) → WFV ks (.map es)

/-- Supported languages.  Modelled from the spec: the protobuf schema
(artman/config/proto/config.proto) is not among the provided sources, so
the enum is reconstructed from the fixed ordered language list in spec
section 3 and converter.py line 104; the zero (proto3 default) value is an
explicit unset marker. -/
inductive Language where
  | LANGUAGE_UNSET
  | JAVA
  | PYTHON
  | PHP
  | RUBY
  | GO
  | CSHARP
  | NODEJS
  deriving DecidableEq, Repr

/-- Release levels.  Modelled from the spec (section 3: release_level is an
optional enum; converter.py uppercases the legacy value for enum lookup). -/
inductive ReleaseLevel where
  | RELEASE_LEVEL_UNSET
  | ALPHA
  | BETA
  | GA
  | DEPRECATED
  deriving DecidableEq, Repr

/-- Artifact types.  Modelled from the spec (section 4.4: GAPIC_ONLY,
GRPC_COMMON and the GAPIC default used by converter.py lines 156-162). -/
inductive ArtifactType where
  | TYPE_UNSET
  | GAPIC
  | GAPIC_ONLY
  | GRPC_COMMON
  deriving DecidableEq, Repr

/-- Publish-target types.  Modelled from the spec (only one supported kind,
GITHUB, converter.py line 173). -/
inductive TargetType where
  | TARGET_UNSET
  | GITHUB
  deriving DecidableEq, Repr

/-- The `Artifact.PackageVersion` message (modelled from the spec, section
6 key table: grpc_dep_lower_bound / grpc_dep_upper_bound). -/
structure PackageVersion where
  grpc_dep_lower_bound : String := ""
  grpc_dep_upper_bound : String := ""
  deriving DecidableEq, Repr

/-- The `Artifact.PublishTarget.DirectoryMapping` message (src, dest,
name; converter.py lines 185-194). -/
structure DirectoryMapping where
  src : String := ""
  dest : String := ""
  name : String := ""
  deriving DecidableEq, Repr

/-- The `Artifact.PublishTarget` message (spec section 3). -/
structure PublishTarget where
  name : String := ""
  location : String := ""
  type : TargetType := .TARGET_UNSET
  directory_mappings : List DirectoryMapping := []
  deriving DecidableEq, Repr

/-- The `Artifact.ProtoDependency` message (spec section 3). -/
structure ProtoDependency where
  name : String := ""
  deriving DecidableEq, Repr

/-- The `Artifact` message.  Modelled from the spec (sections 3 and 6) and
the fields read/written by loader.py and converter.py.  `Config.common` is
itself an `Artifact` (loader.py line 31 `CopyFrom(artman_config.common)`
requires the same message type).  Proto3 field presence: strings and enums
default to empty/zero; the `package_version` sub-message has explicit
presence, modelled with `Option`. -/
structure Artifact where
  name : String := ""
  api_name : String := ""
  api_version : String := ""
  organization_name : String := ""
  language : Language := .LANGUAGE_UNSET
  type : ArtifactType := .TYPE_UNSET
  release_level : ReleaseLevel := .RELEASE_LEVEL_UNSET
  package_version : Option PackageVersion := none
  publish_targets : List PublishTarget := []
  proto_deps : List ProtoDependency := []
  test_proto_deps : List ProtoDependency := []
  src_proto_paths : List String := []
  import_proto_path : List String := []
  service_yaml : String := ""
  gapic_yaml : String := ""
  deriving DecidableEq, Repr

/-- The root `Config` message: a common Artifact plus the artifact list. -/
structure Config where
  common : Artifact := {}
  artifacts : List Artifact := []
  deriving DecidableEq, Repr

/-- Proto3 `MergeFrom` on a singular string field: the source value wins
only when set (non-empty). -/
def mergeStr (d s : String) : String := if s ≠ "" then s else d

/-- Protobuf `MergeFrom` on the `PackageVersion` sub-message. -/
def PackageVersion.mergeFrom (dst src : PackageVersion) : PackageVersion where
  grpc_dep_lower_bound := mergeStr dst.grpc_dep_lower_bound src.grpc_dep_lower_bound
  grpc_dep_upper_bound := mergeStr dst.grpc_dep_upper_bound src.grpc_dep_upper_bound

/-- Protobuf `MergeFrom` on the `Artifact` message, per the documented
python-protobuf semantics used at loader.py line 36: singular scalar
fields are overwritten only when set (non-default) in the source, present
singular sub-messages are merged recursively, and repeated fields are
appended. -/
def Artifact.mergeFrom (dst src : Artifact) : Artifact where
  name := mergeStr dst.name src.name
  api_name := mergeStr dst.api_name src.api_name
  api_version := mergeStr dst.api_version src.api_version
  organization_name := mergeStr dst.organization_name src.organization_name
  language := if src.language ≠ .LANGUAGE_UNSET then src.language else dst.language
  type := if src.type ≠ .TYPE_UNSET then src.type else dst.type
  release_level :=
    if src.release_level ≠ .RELEASE_LEVEL_UNSET then src.release_level
    else dst.release_level
  package_version :=
    match dst.package_version, src.package_version with
    | d, none => d
    | none, some s => some s
    | some d, some s => some (d.mergeFrom s)
  publish_targets := dst.publish_targets ++ src.publish_targets
  proto_deps := dst.proto_deps ++ src.proto_deps
  test_proto_deps := dst.test_proto_deps ++ src.test_proto_deps
  src_proto_paths := dst.src_proto_paths ++ src.src_proto_paths
  import_proto_path := dst.import_proto_path ++ src.import_proto_path
  service_yaml := mergeStr dst.service_yaml src.service_yaml
  gapic_yaml := mergeStr dst.gapic_yaml src.gapic_yaml

/-- POSIX `os.path.isabs`: the path starts with a slash. -/
def isabs (p : String) : Bool :=
  match p.data with
  | [] => false
  | c :: _ => c = '/'

/-- Whether a path ends in a slash (for the join rule). -/
def endsWithSlash (a : String) : Bool :=
  match a.data.getLast? with
  | some c => c = '/'
  | none => false

/-- POSIX `os.path.join(a, b)` for the two-component calls made by the
loader: an absolute second component discards the first; otherwise the
parts are joined, inserting a slash unless `a` is empty or already ends in
one. -/
def pathJoin (a b : String) : String :=
  if isabs b then b
  else if a = "" ∨ endsWithSlash a = true then a ++ b
  else a ++ "/" ++ b

/-- Normalization of one path: prefix with the input directory when not
already absolute (loader.py lines 102-126 branch bodies). -/
def normPath (input_dir p : String) : String :=
  if isabs p then p else pathJoin input_dir p

/-- The element-wise normalization loops of `_normalize_artifact_config`
(loader.py lines 110-118 and 120-126), which rebuild the repeated fields
in order. -/
def normalizePaths (input_dir : String) : List String → List String
  | [] => []
  | p :: ps => normPath input_dir p :: normalizePaths input_dir ps

/-- `_normalize_artifact_config` from loader.py lines 93-128: join
`service_yaml` and `gapic_yaml` onto `input_dir` when relative; an empty
(falsy) `import_proto_path` becomes `[input_dir]`, a non-empty one is
normalized element-wise; `src_proto_paths` is normalized element-wise. -/
def normalize_artifact_config (a : Artifact) (input_dir : String) : Artifact :=
  let a1 :=
    if ¬ (isabs a.service_yaml = true) then
      { a with service_yaml := pathJoin input_dir a.service_yaml }
    else a
  let a2 :=
    if ¬ (isabs a1.gapic_yaml = true) then
      { a1 with gapic_yaml := pathJoin input_dir a1.gapic_yaml }
    else a1
  let a3 :=
    if a2.import_proto_path = [] then { a2 with import_proto_path := [input_dir] }
    else { a2 with import_proto_path := normalizePaths input_dir a2.import_proto_path }
  { a3 with src_proto_paths := normalizePaths input_dir a3.src_proto_paths }

/-- Message of the duplicate-artifact `ValueError` (loader.py line 78). -/
def dupArtifactMsg (n : String) : String :=
  "artifact `" ++ n ++ "` has been configured twice, please rename."

/-- Message of the duplicate-publish-target `ValueError` (loader.py line 82). -/
def dupTargetMsg (t a : String) : String :=
  "publish target `" ++ t ++ "` in artifact `" ++ a ++
    "` has been configured twice, please rename."

/-- Inner loop of `_validate_artman_config` (loader.py lines 80-83):
report the first publish-target name seen twice within one artifact. -/
def checkTargets (aname : String) (seen : List String) :
    List PublishTarget → Option String
  | [] => none
  | t :: rest =>
    if t.name ∈ seen then some (dupTargetMsg t.name aname)
    else checkTargets aname (t.name :: seen) rest

/-- Outer loop of `_validate_artman_config` (loader.py lines 74-86): for
each artifact in order, first check its name against those already seen,
then check its publish targets among themselves. -/
def validateGo (seen : List String) : List Artifact → Option String
  | [] => none
  | a :: rest =>
    if a.name ∈ seen then some (dupArtifactMsg a.name)
    else
      match checkTargets a.name [] a.publish_targets with
      | some m => some m
      | none => validateGo (a.name :: seen) rest

/-- `_validate_artman_config` from loader.py lines 67-86: returns the
first violation message in scan order, or None. -/
def validate_artman_config (cfg : Config) : Option String :=
  validateGo [] cfg.artifacts

/-- `_read_artman_config` from loader.py lines 45-52, starting from the
parsed Config (file reading and YAML parsing elided): raise `ValueError`
with the validation message when validation fails. -/
def read_artman_config (cfg : Config) : Except String Config :=
  match validate_artman_config cfg with
  | some msg => .error msg
  | none => .ok cfg

/-- An ASCII single-quote, built from its code point to keep string
literals simple. -/
def sq : String := ⟨[Char.ofNat 39]⟩

/-- Python `repr` of a list of plain strings, used when formatting the
artifact-not-found message. -/
def pyStrListRepr (l : List String) : String :=
  "[" ++ String.intercalate ", " (l.map (fun s => sq ++ s ++ sq)) ++ "]"

/-- Message of the artifact-not-found `ValueError` (loader.py lines 40-42;
the typo `Valie` is the source's). -/
def artifactNotFoundMsg (name : String) (valid : List String) : String :=
  "No artifact with `" ++ name ++ "` configured in artman yaml. Valie values are "
    ++ pyStrListRepr valid

/-- The artifact-matching loop of `load_artifact_config` (loader.py lines
33-38): on the first name match, copy common, `MergeFrom` the artifact and
normalize.  (`_validate_artifact_config` is a `pass` in the source.) -/
def findArtifact (common : Artifact) (aname input_dir : String) :
    List Artifact → Option Artifact
  | [] => none
  | a :: rest =>
    if a.name = aname then
      some (normalize_artifact_config (common.mergeFrom a) input_dir)
    else findArtifact common aname input_dir rest

/-- `load_artifact_config` from loader.py lines 28-42, starting from the
parsed Config: validate the whole config, resolve the named artifact by
overlaying it on a copy of `common` via `MergeFrom`, normalize paths; when
no artifact matches, raise `ValueError` listing every artifact name. -/
def load_artifact_config (cfg : Config) (artifact_name input_dir : String) :
    Except String Artifact :=
  match read_artman_config cfg with
  | .error e => .error e
  | .ok cfg2 =>
    match findArtifact cfg2.common artifact_name input_dir cfg2.artifacts with
    | some a => .ok a
    | none =>
      .error (artifactNotFoundMsg artifact_name (cfg2.artifacts.map Artifact.name))

/-- Errors raised by the legacy converter: the eager `print` +
`sys.exit(2)` for a missing `common` section (converter.py lines 71-73),
or a Python runtime error (TypeError / KeyError / AttributeError) from
feeding an unexpected shape into a protobuf assignment — the latter are
collapsed into one constructor since no claim distinguishes them. -/
inductive ConvErr where
  | exitTwo (msg : String)
  | runtime
  deriving DecidableEq, Repr

/-- The message printed before `sys.exit(2)` (converter.py line 72). -/
def commonRequiredMsg : String :=
  "`common` field is a required field in the legacy config."

/-- Python `k in d` on a dict. -/
def keyIn (m : Dict) (k : String) : Bool := (lookupD m k).isSome

/-- Python truthiness of a parsed YAML value. -/
def truthy : Value → Bool
  | .str s => s ≠ ""
  | .int n => n ≠ 0
  | .bool b => b
  | .null => false
  | .seq xs => !xs.isEmpty
  | .set xs => !xs.isEmpty
  | .map es => !es.isEmpty

/-- Python `d.get(k, default)` for a Value default. -/
def getD (m : Dict) (k : String) (dflt : Value) : Value :=
  match lookupD m k with
  | some v => v
  | none => dflt

/-- `d.get(k, default)` whose result is assigned to a protobuf string
field: a present non-string value raises a runtime `TypeError`. -/
def getStrD (m : Dict) (k dflt : String) : Except ConvErr String :=
  match lookupD m k with
  | none => .ok dflt
  | some (.str s) => .ok s
  | some _ => .error .runtime

/-- `_sanitize_repl_var` (converter.py lines 215-219): strip a known
path-variable prefix token by `str.replace`; a string matching neither
token falls off the end of the Python function and yields `None`. -/
def sanitize_repl_var (value : String) : Option String :=
  if ("${GOOGLEAPIS}/").data.isPrefixOf value.data then
    some (pyReplace value "${GOOGLEAPIS}/" "")
  else if ("${REPOROOT}/").data.isPrefixOf value.data then
    some (pyReplace value "${REPOROOT}/" "")
  else none

/-- `_compute_deps` (converter.py lines 199-205): each entry becomes a
ProtoDependency named by it; a non-string entry raises at the protobuf
assignment. -/
def compute_deps : List Value → Except ConvErr (List ProtoDependency)
  | [] => .ok []
  | .str s :: rest =>
    match compute_deps rest with
    | .ok ds => .ok ({ name := s } :: ds)
    | .error e => .error e
  | _ :: _ => .error .runtime

/-- `_compute_src_proto_paths` (converter.py lines 208-212): sanitize each
path.  When the sanitizer yields `None` the Python list receives a `None`
entry and the subsequent protobuf `extend` raises; that failure is
reported here directly. -/
def compute_src_proto_paths : List Value → Except ConvErr (List String)
  | [] => .ok []
  | .str s :: rest =>
    match sanitize_repl_var s with
    | some s2 =>
      match compute_src_proto_paths rest with
      | .ok ps => .ok (s2 :: ps)
      | .error e => .error e
    | none => .error .runtime
  | _ :: _ => .error .runtime

/-- `_compute_artifact_type` (converter.py lines 156-162). -/
def compute_artifact_type (lc : Dict) : ArtifactType :=
  if beqValue (getD lc "packaging" (.str "")) (.str "google-cloud") then .GAPIC_ONLY
  else if beqValue (getD lc "package_type" (.str "")) (.str "grpc_common") then
    .GRPC_COMMON
  else .GAPIC

/-- Python `str.upper()` (ASCII, as used on language and release names). -/
def pyUpper (s : String) : String := ⟨s.data.map Char.toUpper⟩

/-- `Artifact.ReleaseLevel.Value(name)`: enum lookup by (uppercased) name;
an unknown name raises. -/
def releaseLevelValue : String → Option ReleaseLevel
  | "ALPHA" => some .ALPHA
  | "BETA" => some .BETA
  | "GA" => some .GA
  | "DEPRECATED" => some .DEPRECATED
  | _ => none

/-- `Artifact.Language.Value(name)`: enum lookup by (uppercased) name. -/
def languageValue : String → Option Language
  | "JAVA" => some .JAVA
  | "PYTHON" => some .PYTHON
  | "PHP" => some .PHP
  | "RUBY" => some .RUBY
  | "GO" => some .GO
  | "CSHARP" => some .CSHARP
  | "NODEJS" => some .NODEJS
  | _ => none

/-- Read an optional string field of a structured directory-mapping entry
(`path.get('src')` etc., converter.py lines 189-194); a present non-string
raises at the protobuf assignment. -/
def getFieldStr (es : Dict) (k : String) : Except ConvErr String :=
  match lookupD es k with
  | none => .ok ""
  | some (.str s) => .ok s
  | some _ => .error .runtime

/-- `_compute_directory_mappings` (converter.py lines 182-196).  NOTE the
faithful transcription of the source's indentation: `result.append(mapping)`
sits inside the `else` branch (line 195), so for a bare-string path the
mapping is created, its `dest` field is set — and then discarded, never
appended.  Entries of any other shape are collapsed to a runtime error. -/
def compute_directory_mappings : List Value → Except ConvErr (List DirectoryMapping)
  | [] => .ok []
  | .str _ :: rest =>
    compute_directory_mappings rest
  | .map es :: rest =>
    match getFieldStr es "src" with
    | .error e => .error e
    | .ok s =>
      match getFieldStr es "dest" with
      | .error e => .error e
      | .ok d =>
        match getFieldStr es "artifact" with
        | .error e => .error e
        | .ok n =>
          match compute_directory_mappings rest with
          | .ok ms => .ok ({ src := s, dest := d, name := n } :: ms)
          | .error e => .error e
  | _ :: _ => .error .runtime

/-- Fetch `location` from a per-repo mapping (`...['location']`); a
missing key or non-mapping repo raises. -/
def repoLocation (m : Value) : Except ConvErr String :=
  match m with
  | .map es =>
    match lookupD es "location" with
    | some (.str s) => .ok s
    | some _ => .error .runtime
    | none => .error .runtime
  | _ => .error .runtime

/-- `_compute_publish_targets` (converter.py lines 165-179).  The second
argument is `some cr` when the common section's `git_repos` was a truthy
mapping; otherwise the source leaves the Python list `[]` in its place and
the first `common_git_repos.keys()` call raises `AttributeError`, modelled
by `none` erroring on first use.  The authoritative `location` comes from
the common entry when the repo key exists there, else from the
language-specific entry. -/
def compute_publish_targets : Dict → Option Dict → Except ConvErr (List PublishTarget)
  | [], _ => .ok []
  | (k, v) :: rest, commonRepos =>
    match commonRepos with
    | none => .error .runtime
    | some cr =>
      match ((if keyIn cr k then repoLocation (getD cr k .null) else repoLocation v) :
          Except ConvErr String) with
      | .error e => .error e
      | .ok loc =>
        match v with
        | .map vs =>
          match
            ((match lookupD vs "paths" with
              | some (.seq paths) => compute_directory_mappings paths
              | some _ => .error .runtime
              | none => .ok []) : Except ConvErr (List DirectoryMapping)) with
          | .error e => .error e
          | .ok dms =>
            match compute_publish_targets rest (some cr) with
            | .error e => .error e
            | .ok ts =>
              .ok ({ name := k, location := loc, type := .GITHUB,
                     directory_mappings := dms } :: ts)
        | _ => .error .runtime

/-- The fixed, ordered supported-language list (converter.py line 104). -/
def LANGS : List String := ["java", "python", "php", "ruby", "go", "csharp", "nodejs"]

/-- Build the artifact for one language section (converter.py lines
115-143): name `<lang>_gapic`, language enum, optional release level,
derived type, optional package-version bounds, and publish targets from a
present `git_repos` mapping. -/
def buildArtifactFields (la : Dict) (lc : Dict) (commonRepos : Option Dict)
    (lang : String) : Except ConvErr Artifact :=
  match languageValue (pyUpper lang) with
  | none => .error .runtime
  | some lv =>
    match
      ((match lookupD la "release_level" with
        | none => .ok ReleaseLevel.RELEASE_LEVEL_UNSET
        | some (.str s) =>
          match releaseLevelValue (pyUpper s) with
          | some r => .ok r
          | none => .error ConvErr.runtime
        | some _ => .error ConvErr.runtime) : Except ConvErr ReleaseLevel) with
    | .error e => .error e
    | .ok rel =>
      match
        ((match lookupD la "generated_package_version" with
          | none => .ok (none : Option PackageVersion)
          | some (.map pv) =>
            match lookupD pv "lower", lookupD pv "upper" with
            | none, none => .ok none
            | some (.str lo), none => .ok (some { grpc_dep_lower_bound := lo })
            | none, some (.str up) => .ok (some { grpc_dep_upper_bound := up })
            | some (.str lo), some (.str up) =>
              .ok (some { grpc_dep_lower_bound := lo, grpc_dep_upper_bound := up })
            | _, _ => .error ConvErr.runtime
          | some _ => .error ConvErr.runtime) : Except ConvErr (Option PackageVersion)) with
      | .error e => .error e
      | .ok pv =>
        match
          ((match lookupD la "git_repos" with
            | none => .ok ([] : List PublishTarget)
            | some (.map repos) => compute_publish_targets repos commonRepos
            | some _ => .error ConvErr.runtime) : Except ConvErr (List PublishTarget)) with
        | .error e => .error e
        | .ok pts =>
          .ok { name := lang ++ "_gapic", language := lv, release_level := rel,
                type := compute_artifact_type lc, package_version := pv,
                publish_targets := pts }

/-- The language loop of `_compute_artifacts` (converter.py lines
112-143): skip absent or falsy language sections, build an artifact for
each truthy mapping section, in the fixed language order. -/
def compute_artifacts_go (legacy : Dict) (lc : Dict) (commonRepos : Option Dict) :
    List String → Except ConvErr (List Artifact)
  | [] => .ok []
  | lang :: rest =>
    match lookupD legacy lang with
    | none => compute_artifacts_go legacy lc commonRepos rest
    | some lv =>
      if truthy lv then
        match lv with
        | .map la =>
          match buildArtifactFields la lc commonRepos lang with
          | .error e => .error e
          | .ok a =>
            match compute_artifacts_go legacy lc commonRepos rest with
            | .error e => .error e
            | .ok arts => .ok (a :: arts)
        | _ => .error ConvErr.runtime
      else compute_artifacts_go legacy lc commonRepos rest

/-- `_compute_artifacts` (converter.py lines 102-144): the common
`git_repos` mapping is used when truthy; otherwise the Python code leaves
a bare list `[]` whose later `.keys()` lookup raises, modelled by `none`
(a truthy non-mapping likewise has no `.keys()`). -/
def compute_artifacts (legacy : Dict) (lc : Dict) : Except ConvErr (List Artifact) :=
  let commonRepos : Option Dict :=
    match lookupD lc "git_repos" with
    | some (.map cr) => if cr.isEmpty then none else some cr
    | _ => none
  compute_artifacts_go legacy lc commonRepos LANGS

/-- One truthy-guarded sanitized scalar from a legacy list-valued field
(`legacy_common.get('gapic_api_yaml')[0]`, converter.py lines 82-87): take
the first element, sanitize it; a `None` sanitizer result raises at the
protobuf assignment. -/
def firstSanitized (lc : Dict) (k : String) : Except ConvErr String :=
  match lookupD lc k with
  | none => .ok ""
  | some v =>
    if truthy v then
      match v with
      | .seq (.str s :: _) =>
        match sanitize_repl_var s with
        | some s2 => .ok s2
        | none => .error .runtime
      | _ => .error .runtime
    else .ok ""

/-- A truthy-guarded list-valued common field fed through a converter
(`if legacy_common.get(k): result.extend(f(...))`). -/
def truthyList (lc : Dict) (k : String) : Except ConvErr (Option (List Value)) :=
  match lookupD lc k with
  | none => .ok none
  | some v =>
    if truthy v then
      match v with
      | .seq xs => .ok (some xs)
      | _ => .error .runtime
    else .ok none

/-- The common-section body of `_convert` (converter.py lines 74-99) plus
the artifact computation: scalar fields default to "unspecified"; the
list-valued fields are converted only when truthy. -/
def convertWithCommon (legacy : Dict) (lc : Dict) : Except ConvErr Config := do
  let api_name ← getStrD lc "api_name" "unspecified"
  let api_version ← getStrD lc "api_version" "unspecified"
  let organization_name ← getStrD lc "organization_name" "unspecified"
  let gapic_yaml ← firstSanitized lc "gapic_api_yaml"
  let service_yaml ← firstSanitized lc "service_yaml"
  let proto_deps ←
    match ← truthyList lc "proto_deps" with
    | some ds => compute_deps ds
    | none => pure []
  let test_proto_deps ←
    match ← truthyList lc "proto_test_deps" with
    | some ds => compute_deps ds
    | none => pure []
  let src_proto_paths ←
    match ← truthyList lc "src_proto_path" with
    | some ps => compute_src_proto_paths ps
    | none => pure []
  let artifacts ← compute_artifacts legacy lc
  pure { common := { api_name := api_name, api_version := api_version,
                     organization_name := organization_name,
                     gapic_yaml := gapic_yaml, service_yaml := service_yaml,
                     proto_deps := proto_deps, test_proto_deps := test_proto_deps,
                     src_proto_paths := src_proto_paths },
         artifacts := artifacts }

/-- `_convert` (converter.py lines 68-99) on the parsed legacy YAML
mapping: a document without the `common` key prints a message naming
`common` and exits with status 2 before anything else — in particular
before any artifact section is examined. -/
def convert (legacy : Dict) : Except ConvErr Config :=
  if keyIn legacy "common" then
    match lookupD legacy "common" with
    | some (.map lc) => convertWithCommon legacy lc
    | some _ => .error .runtime
    | none => .error (.exitTwo commonRequiredMsg)
  else .error (.exitTwo commonRequiredMsg)

/-- A Config whose only violation is the duplicated artifact name "b". -/
def dupCfg : Config := { artifacts := [{ name := "b" }, { name := "b" }] }

/-- A Config with duplicate artifact names "zz" whose first scan violation
is a duplicate publish-target "t" inside artifact "a". -/
def dupTargetCfg : Config :=
  { artifacts :=
      [ { name := "a", publish_targets := [{ name := "t" }, { name := "t" }] },
        { name := "zz" },
        { name := "zz" } ] }

/-- A Config exercising the overlay: the common section and the artifact
both set `src_proto_paths`. -/
def c1Cfg : Config :=
  { common := { src_proto_paths := ["/a"], service_yaml := "/s.yaml" },
    artifacts := [{ name := "x", src_proto_paths := ["/b"] }] }

/-- The single artifact entry of `c1Cfg`. -/
def c1Art : Artifact := { name := "x", src_proto_paths := ["/b"] }

/-- A legacy document whose common section is empty and which still
carries a java section. -/
def c3Doc : Dict := [("common", .map []), ("java", .map [("foo", .str "bar")])]

theorem lookupD_append (m l : Dict) (k : String) :
    lookupD (m ++ l) k =
      match lookupD m k with
      | some v => some v
      | none => lookupD l k := by
  induction m with
  | nil => simp [lookupD]
  | cons p rest ih =>
    obtain ⟨k1, v1⟩ := p
    by_cases h : k1 = k <;> simp [lookupD, h, ih]

theorem lookupD_append_single_ne (m : Dict) {k k1 : String} (v1 : Value) (h : k1 ≠ k) :
    lookupD (m ++ [(k1, v1)]) k = lookupD m k := by
  rw [lookupD_append]
  cases hm : lookupD m k <;> simp [lookupD, h]

theorem lookupD_setKey_self (m : Dict) (k : String) (v : Value) :
    lookupD (setKey m k v) k = some v := by
  induction m with
  | nil => simp [setKey, lookupD]
  | cons p rest ih =>
    obtain ⟨k1, v1⟩ := p
    by_cases h : k1 = k <;> simp [setKey, lookupD, h, ih]

theorem lookupD_setKey_ne (m : Dict) {k k2 : String} (v : Value) (h : k2 ≠ k) :
    lookupD (setKey m k2 v) k = lookupD m k := by
  induction m with
  | nil => simp [setKey, lookupD, h]
  | cons p rest ih =>
    obtain ⟨k1, v1⟩ := p
    by_cases h1 : k1 = k2
    · subst h1
      simp [setKey, lookupD, h]
    · simp [setKey, lookupD, h1, ih]

/-- Folding a source dictionary whose keys are fresh for the accumulator
just appends its entries in order. -/
theorem mergeTwo_insert_all (l : Dict) : ∀ acc : Dict,
    (∀ p ∈ l, lookupD acc p.1 = none) → (l.map Prod.fst).Nodup →
    mergeTwo acc l = .ok (acc ++ l) := by
  induction l with
  | nil => intro acc _ _; simp [mergeTwo]
  | cons p rest ih =>
    intro acc hdisj hnd
    obtain ⟨k, v⟩ := p
    have hk : lookupD acc k = none := hdisj (k, v) (by simp)
    simp only [List.map_cons, List.nodup_cons] at hnd
    have hrest : ∀ q ∈ rest, lookupD (acc ++ [(k, v)]) q.1 = none := by
      intro q hq
      have hne : k ≠ q.1 := by
        intro heq
        exact hnd.1 (heq ▸ List.mem_map_of_mem Prod.fst hq)
      rw [lookupD_append_single_ne _ _ hne]
      exact hdisj q (List.mem_cons_of_mem _ hq)
    have := ih (acc ++ [(k, v)]) hrest hnd.2
    simp only [mergeTwo, hk]
    rw [this]
    simp

theorem lookupD_eq_none (m : Dict) (k : String) (h : k ∉ m.map Prod.fst) :
    lookupD m k = none := by
  induction m with
  | nil => rfl
  | cons p rest ih =>
    obtain ⟨k1, v1⟩ := p
    simp only [List.map_cons, List.mem_cons] at h
    push_neg at h
    have hne : ¬ k1 = k := fun heq => h.1 heq.symm
    simp [lookupD, hne, ih h.2]

/-- Keys absent from the source dictionary are untouched by a merge pass. -/
theorem mergeTwo_preserves_absent : ∀ acc src : Dict, ∀ (r : Dict) (k : String),
    lookupD src k = none → mergeTwo acc src = .ok r → lookupD r k = lookupD acc k := by
  intro acc src
  induction acc, src using mergeTwo.induct with
  | case1 answer =>
    intro r k _ hok
    simp only [mergeTwo, Except.ok.injEq] at hok
    rw [← hok]
  | case2 answer k0 v0 rest hnone ih =>
    intro r k habs hok
    simp only [lookupD] at habs
    by_cases hkk : k0 = k
    · simp [hkk] at habs
    · simp only [if_neg hkk] at habs
      simp only [mergeTwo, hnone] at hok
      rw [ih r k habs hok, lookupD_append_single_ne _ _ hkk]
  | case3 answer k0 rest xs ys hl ih =>
    intro r k habs hok
    simp only [lookupD] at habs
    by_cases hkk : k0 = k
    · simp [hkk] at habs
    · simp only [if_neg hkk] at habs
      simp only [mergeTwo, hl] at hok
      rw [ih r k habs hok, lookupD_setKey_ne _ _ hkk]
  | case4 answer k0 v rest xs hne hl =>
    intro r k habs hok
    cases v
    all_goals first
      | exact (hne _ rfl).elim
      | simp [mergeTwo, hl] at hok
  | case5 answer k0 rest xs ys hl ih =>
    intro r k habs hok
    simp only [lookupD] at habs
    by_cases hkk : k0 = k
    · simp [hkk] at habs
    · simp only [if_neg hkk] at habs
      simp only [mergeTwo, hl] at hok
      rw [ih r k habs hok, lookupD_setKey_ne _ _ hkk]
  | case6 answer k0 v rest xs hne hl =>
    intro r k habs hok
    cases v
    all_goals first
      | exact (hne _ rfl).elim
      | simp [mergeTwo, hl] at hok
  | case7 answer k0 rest m1 m2 merged hmerge hl ihInner ih =>
    intro r k habs hok
    simp only [lookupD] at habs
    by_cases hkk : k0 = k
    · simp [hkk] at habs
    · simp only [if_neg hkk] at habs
      simp only [mergeTwo, hl, hmerge] at hok
      rw [ih r k habs hok, lookupD_setKey_ne _ _ hkk]
  | case8 answer k0 rest m1 m2 e hmerge hl ihInner =>
    intro r k habs hok
    simp [mergeTwo, hl, hmerge] at hok
  | case9 answer k0 v rest entries hne hl =>
    intro r k habs hok
    cases v
    all_goals first
      | exact (hne _ rfl).elim
      | simp [mergeTwo, hl] at hok
  | case10 answer k0 v rest old hl hs1 hs2 hs3 hp1 hp2 hp3 ih =>
    intro r k habs hok
    simp only [lookupD] at habs
    by_cases hkk : k0 = k
    · simp [hkk] at habs
    · simp only [if_neg hkk] at habs
      cases old
      all_goals first
        | exact (hs1 _ rfl).elim
        | exact (hs2 _ rfl).elim
        | exact (hs3 _ rfl).elim
        | (simp only [mergeTwo, hl] at hok
           rw [ih r k habs hok, lookupD_setKey_ne _ _ hkk])

/-- When the accumulator and a source both hold a sequence at a key and the
merge pass succeeds, the result at that key is the concatenation. -/
theorem mergeTwo_seq_key : ∀ acc src : Dict,
    ∀ (r : Dict) (k : String) (xs ys : List Value),
    lookupD acc k = some (.seq xs) → lookupD src k = some (.seq ys) →
    (src.map Prod.fst).Nodup → mergeTwo acc src = .ok r →
    lookupD r k = some (.seq (xs ++ ys)) := by
  intro acc src
  induction acc, src using mergeTwo.induct with
  | case1 answer =>
    intro r k xs ys hacc hsrc _ hok
    simp [lookupD] at hsrc
  | case2 answer k0 v0 rest hnone ih =>
    intro r k xs ys hacc hsrc hnd hok
    simp only [List.map_cons, List.nodup_cons] at hnd
    have hkk : k0 ≠ k := by
      intro h; subst h; rw [hnone] at hacc; cases hacc
    simp only [lookupD, if_neg hkk] at hsrc
    simp only [mergeTwo, hnone] at hok
    exact ih r k xs ys (by rw [lookupD_append_single_ne _ _ hkk]; exact hacc) hsrc hnd.2 hok
  | case3 answer k0 rest xs0 ys0 hl ih =>
    intro r k xs ys hacc hsrc hnd hok
    simp only [List.map_cons, List.nodup_cons] at hnd
    simp only [mergeTwo, hl] at hok
    by_cases hkk : k0 = k
    · subst hkk
      rw [hacc] at hl
      injection hl with hl
      injection hl with hl
      subst hl
      simp [lookupD] at hsrc
      subst hsrc
      have habs : lookupD rest k0 = none := lookupD_eq_none _ _ hnd.1
      rw [mergeTwo_preserves_absent _ _ r k0 habs hok, lookupD_setKey_self]
    · simp only [lookupD, if_neg hkk] at hsrc
      exact ih r k xs ys (by rw [lookupD_setKey_ne _ _ hkk]; exact hacc) hsrc hnd.2 hok
  | case4 answer k0 v rest xs0 hne hl =>
    intro r k xs ys hacc hsrc hnd hok
    cases v
    all_goals first
      | exact (hne _ rfl).elim
      | simp [mergeTwo, hl] at hok
  | case5 answer k0 rest xs0 ys0 hl ih =>
    intro r k xs ys hacc hsrc hnd hok
    simp only [List.map_cons, List.nodup_cons] at hnd
    have hkk : k0 ≠ k := by
      intro h; subst h; simp [lookupD] at hsrc
    simp only [lookupD, if_neg hkk] at hsrc
    simp only [mergeTwo, hl] at hok
    exact ih r k xs ys (by rw [lookupD_setKey_ne _ _ hkk]; exact hacc) hsrc hnd.2 hok
  | case6 answer k0 v rest xs0 hne hl =>
    intro r k xs ys hacc hsrc hnd hok
    cases v
    all_goals first
      | exact (hne _ rfl).elim
      | simp [mergeTwo, hl] at hok
  | case7 answer k0 rest m1 m2 merged hmerge hl ihInner ih =>
    intro r k xs ys hacc hsrc hnd hok
    simp only [List.map_cons, List.nodup_cons] at hnd
    have hkk : k0 ≠ k := by
      intro h; subst h; simp [lookupD] at hsrc
    simp only [lookupD, if_neg hkk] at hsrc
    simp only [mergeTwo, hl, hmerge] at hok
    exact ih r k xs ys (by rw [lookupD_setKey_ne _ _ hkk]; exact hacc) hsrc hnd.2 hok
  | case8 answer k0 rest m1 m2 e hmerge hl ihInner =>
    intro r k xs ys hacc hsrc hnd hok
    simp [mergeTwo, hl, hmerge] at hok
  | case9 answer k0 v rest entries hne hl =>
    intro r k xs ys hacc hsrc hnd hok
    by_cases hkk : k0 = k
    · subst hkk
      rw [hacc] at hl
      cases hl
    · cases v
      all_goals first
        | exact (hne _ rfl).elim
        | simp [mergeTwo, hl] at hok
  | case10 answer k0 v rest old hl hs1 hs2 hs3 hp1 hp2 hp3 ih =>
    intro r k xs ys hacc hsrc hnd hok
    simp only [List.map_cons, List.nodup_cons] at hnd
    have hkk : k0 ≠ k := by
      intro h; subst h
      rw [hacc] at hl
      injection hl with hl
      exact hs1 xs hl.symm
    simp only [lookupD, if_neg hkk] at hsrc
    cases old
    all_goals first
      | exact (hs1 _ rfl).elim
      | exact (hs2 _ rfl).elim
      | exact (hs3 _ rfl).elim
      | (simp only [mergeTwo, hl] at hok
         exact ih r k xs ys (by rw [lookupD_setKey_ne _ _ hkk]; exact hacc) hsrc hnd.2 hok)

/-- Every error a merge pass can produce carries one of the three fixed
`ValueError` messages. -/
theorem mergeTwo_error_form : ∀ acc src : Dict, ∀ e : String,
    mergeTwo acc src = .error e → ∃ K : CKind, e = mismatchMsg K := by
  intro acc src
  induction acc, src using mergeTwo.induct with
  | case1 answer => intro e he; simp [mergeTwo] at he
  | case2 answer k0 v0 rest hnone ih =>
    intro e he
    simp only [mergeTwo, hnone] at he
    exact ih e he
  | case3 answer k0 rest xs ys hl ih =>
    intro e he
    simp only [mergeTwo, hl] at he
    exact ih e he
  | case4 answer k0 v rest xs hne hl =>
    intro e he
    cases v
    all_goals first
      | exact (hne _ rfl).elim
      | (simp only [mergeTwo, hl] at he
         injection he with he
         subst he
         exact ⟨.list, rfl⟩)
  | case5 answer k0 rest xs ys hl ih =>
    intro e he
    simp only [mergeTwo, hl] at he
    exact ih e he
  | case6 answer k0 v rest xs hne hl =>
    intro e he
    cases v
    all_goals first
      | exact (hne _ rfl).elim
      | (simp only [mergeTwo, hl] at he
         injection he with he
         subst he
         exact ⟨.set, rfl⟩)
  | case7 answer k0 rest m1 m2 merged hmerge hl ihInner ih =>
    intro e he
    simp only [mergeTwo, hl, hmerge] at he
    exact ih e he
  | case8 answer k0 rest m1 m2 e0 hmerge hl ihInner =>
    intro e he
    simp only [mergeTwo, hl, hmerge] at he
    injection he with he
    subst he
    exact ihInner e0 hmerge
  | case9 answer k0 v rest entries hne hl =>
    intro e he
    cases v
    all_goals first
      | exact (hne _ rfl).elim
      | (simp only [mergeTwo, hl] at he
         injection he with he
         subst he
         exact ⟨.dict, rfl⟩)
  | case10 answer k0 v rest old hl hs1 hs2 hs3 hp1 hp2 hp3 ih =>
    intro e he
    cases old
    all_goals first
      | exact (hs1 _ rfl).elim
      | exact (hs2 _ rfl).elim
      | exact (hs3 _ rfl).elim
      | (simp only [mergeTwo, hl] at he
         exact ih e he)

/-- A container-kind clash at a key shared by accumulator and source makes
the merge pass fail. -/
theorem mergeTwo_mismatch_error : ∀ acc src : Dict,
    ∀ (k : String) (v1 v2 : Value) (K1 K2 : CKind),
    lookupD acc k = some v1 → lookupD src k = some v2 →
    ckindOf v1 = some K1 → ckindOf v2 = some K2 → K1 ≠ K2 →
    ∃ e, mergeTwo acc src = .error e := by
  intro acc src
  induction acc, src using mergeTwo.induct with
  | case1 answer =>
    intro k v1 v2 K1 K2 hacc hsrc hc1 hc2 hne
    simp [lookupD] at hsrc
  | case2 answer k0 v0 rest hnone ih =>
    intro k v1 v2 K1 K2 hacc hsrc hc1 hc2 hne
    have hkk : k0 ≠ k := by
      intro h; subst h; rw [hnone] at hacc; cases hacc
    simp only [lookupD, if_neg hkk] at hsrc
    obtain ⟨e, he⟩ :=
      ih k v1 v2 K1 K2 (by rw [lookupD_append_single_ne _ _ hkk]; exact hacc) hsrc hc1 hc2 hne
    exact ⟨e, by simp only [mergeTwo, hnone]; exact he⟩
  | case3 answer k0 rest xs ys hl ih =>
    intro k v1 v2 K1 K2 hacc hsrc hc1 hc2 hne
    by_cases hkk : k0 = k
    · subst hkk
      rw [hacc] at hl
      injection hl with hl
      subst hl
      simp [lookupD] at hsrc
      subst hsrc
      have h1 : CKind.list = K1 := by simpa [ckindOf] using hc1
      have h2 : CKind.list = K2 := by simpa [ckindOf] using hc2
      exact (hne (h1.symm.trans h2)).elim
    · simp only [lookupD, if_neg hkk] at hsrc
      obtain ⟨e, he⟩ :=
        ih k v1 v2 K1 K2 (by rw [lookupD_setKey_ne _ _ hkk]; exact hacc) hsrc hc1 hc2 hne
      exact ⟨e, by simp only [mergeTwo, hl]; exact he⟩
  | case4 answer k0 v rest xs hne0 hl =>
    intro k v1 v2 K1 K2 hacc hsrc hc1 hc2 hne
    cases v
    all_goals first
      | exact (hne0 _ rfl).elim
      | exact ⟨listNonListMsg, by simp [mergeTwo, hl]⟩
  | case5 answer k0 rest xs ys hl ih =>
    intro k v1 v2 K1 K2 hacc hsrc hc1 hc2 hne
    by_cases hkk : k0 = k
    · subst hkk
      rw [hacc] at hl
      injection hl with hl
      subst hl
      simp [lookupD] at hsrc
      subst hsrc
      have h1 : CKind.set = K1 := by simpa [ckindOf] using hc1
      have h2 : CKind.set = K2 := by simpa [ckindOf] using hc2
      exact (hne (h1.symm.trans h2)).elim
    · simp only [lookupD, if_neg hkk] at hsrc
      obtain ⟨e, he⟩ :=
        ih k v1 v2 K1 K2 (by rw [lookupD_setKey_ne _ _ hkk]; exact hacc) hsrc hc1 hc2 hne
      exact ⟨e, by simp only [mergeTwo, hl]; exact he⟩
  | case6 answer k0 v rest xs hne0 hl =>
    intro k v1 v2 K1 K2 hacc hsrc hc1 hc2 hne
    cases v
    all_goals first
      | exact (hne0 _ rfl).elim
      | exact ⟨setNonSetMsg, by simp [mergeTwo, hl]⟩
  | case7 answer k0 rest m1 m2 merged hmerge hl ihInner ih =>
    intro k v1 v2 K1 K2 hacc hsrc hc1 hc2 hne
    by_cases hkk : k0 = k
    · subst hkk
      rw [hacc] at hl
      injection hl with hl
      subst hl
      simp [lookupD] at hsrc
      subst hsrc
      have h1 : CKind.dict = K1 := by simpa [ckindOf] using hc1
      have h2 : CKind.dict = K2 := by simpa [ckindOf] using hc2
      exact (hne (h1.symm.trans h2)).elim
    · simp only [lookupD, if_neg hkk] at hsrc
      obtain ⟨e, he⟩ :=
        ih k v1 v2 K1 K2 (by rw [lookupD_setKey_ne _ _ hkk]; exact hacc) hsrc hc1 hc2 hne
      exact ⟨e, by simp only [mergeTwo, hl, hmerge]; exact he⟩
  | case8 answer k0 rest m1 m2 e0 hmerge hl ihInner =>
    intro k v1 v2 K1 K2 hacc hsrc hc1 hc2 hne
    exact ⟨e0, by simp [mergeTwo, hl, hmerge]⟩
  | case9 answer k0 v rest entries hne0 hl =>
    intro k v1 v2 K1 K2 hacc hsrc hc1 hc2 hne
    cases v
    all_goals first
      | exact (hne0 _ rfl).elim
      | exact ⟨dictNonDictMsg, by simp [mergeTwo, hl]⟩
  | case10 answer k0 v rest old hl hs1 hs2 hs3 hp1 hp2 hp3 ih =>
    intro k v1 v2 K1 K2 hacc hsrc hc1 hc2 hne
    have hkk : k0 ≠ k := by
      intro h; subst h
      rw [hacc] at hl
      injection hl with hl
      subst hl
      cases v1 <;> simp [ckindOf] at hc1
      · exact hs1 _ rfl
      · exact hs2 _ rfl
      · exact hs3 _ rfl
    simp only [lookupD, if_neg hkk] at hsrc
    cases old
    all_goals first
      | exact (hs1 _ rfl).elim
      | exact (hs2 _ rfl).elim
      | exact (hs3 _ rfl).elim
      | (obtain ⟨e, he⟩ :=
           ih k v1 v2 K1 K2 (by rw [lookupD_setKey_ne _ _ hkk]; exact hacc) hsrc hc1 hc2 hne
         exact ⟨e, by simp only [mergeTwo, hl]; exact he⟩)

/-- Claim C5: when two input mappings both hold a sequence at the same key
and the merge succeeds, the result at that key is the accumulator's
elements first, in order, followed by the new source's elements in order.
The key-distinctness hypotheses reflect that the inputs come from Python
dictionaries. -/
theorem merge_seq_concat (m1 m2 r : Dict) (k : String) (xs ys : List Value)
    (h1 : (m1.map Prod.fst).Nodup) (h2 : (m2.map Prod.fst).Nodup)
    (hk1 : lookupD m1 k = some (.seq xs)) (hk2 : lookupD m2 k = some (.seq ys))
    (hok : merge [m1, m2] = .ok r) :
    lookupD r k = some (.seq (xs ++ ys)) := by
  have hp1 : mergeTwo [] m1 = .ok m1 := by
    simpa using mergeTwo_insert_all m1 [] (fun p _ => rfl) h1
  simp only [merge, mergeGo, hp1] at hok
  cases hm : mergeTwo m1 m2 with
  | ok r2 =>
    rw [hm] at hok
    injection hok with hok
    subst hok
    exact mergeTwo_seq_key m1 m2 r2 k xs ys hk1 hk2 h2 hm
  | error e =>
    rw [hm] at hok
    cases hok

/-- Witness for C5: the spec example merge({a:[1,2]}, {a:[3]}) == {a:[1,2,3]}. -/
theorem merge_seq_concat_witness :
    lookupD [("a", Value.seq [.int 1, .int 2, .int 3])] "a" =
      some (.seq ([Value.int 1, .int 2] ++ [.int 3])) :=
  merge_seq_concat [("a", .seq [.int 1, .int 2])] [("a", .seq [.int 3])]
    [("a", .seq [.int 1, .int 2, .int 3])] "a" [.int 1, .int 2] [.int 3]
    (by simp) (by simp) (by simp [lookupD]) (by simp [lookupD])
    (by simp [merge, mergeGo, mergeTwo, lookupD, setKey])

/-- Claim C4 (amended): a container-kind clash at a shared key makes the
whole merge fail with a `ValueError` carrying one of the three fixed
messages; no partial result is returned.  (The message does not contain
the key, and names only the accumulated side's kind.) -/
theorem merge_mismatch_fails (m1 m2 : Dict) (k : String) (v1 v2 : Value) (K1 K2 : CKind)
    (h1 : (m1.map Prod.fst).Nodup)
    (hk1 : lookupD m1 k = some v1) (hk2 : lookupD m2 k = some v2)
    (hc1 : ckindOf v1 = some K1) (hc2 : ckindOf v2 = some K2) (hne : K1 ≠ K2) :
    ∃ K : CKind, merge [m1, m2] = .error (mismatchMsg K) := by
  have hp1 : mergeTwo [] m1 = .ok m1 := by
    simpa using mergeTwo_insert_all m1 [] (fun p _ => rfl) h1
  obtain ⟨e, he⟩ := mergeTwo_mismatch_error m1 m2 k v1 v2 K1 K2 hk1 hk2 hc1 hc2 hne
  obtain ⟨K, hK⟩ := mergeTwo_error_form m1 m2 e he
  refine ⟨K, ?_⟩
  simp only [merge, mergeGo, hp1, he, hK]

/-- Witness for C4's amended theorem at the spec's own example
merge({a:[1]}, {a:{x:1}}). -/
theorem merge_mismatch_fails_witness :
    ∃ K : CKind,
      merge [[("qq", Value.seq [.int 1])], [("qq", Value.map [("x", .int 1)])]] =
        .error (mismatchMsg K) :=
  merge_mismatch_fails [("qq", .seq [.int 1])] [("qq", .map [("x", .int 1)])] "qq"
    (.seq [.int 1]) (.map [("x", .int 1)]) .list .dict
    (by simp) (by simp [lookupD]) (by simp [lookupD]) rfl rfl (by decide)

/-- Counterexample for C4 as stated: the error raised for
merge({qq:[1]}, {qq:{x:1}}) is the fixed message
"Attempt to merge a list and non-list.", which contains neither the
offending key `qq` nor the kind (dict) of the right-hand value, so the
error does not identify the key and the two conflicting value kinds. -/
theorem merge_mismatch_cex :
    merge [[("qq", Value.seq [.int 1])], [("qq", Value.map [("x", .int 1)])]] =
      .error listNonListMsg
    ∧ occursIn "qq".data listNonListMsg.data = false
    ∧ occursIn "dict".data listNonListMsg.data = false := by
  refine ⟨?_, ?_, ?_⟩
  · simp [merge, mergeGo, mergeTwo, lookupD]
  · decide
  · decide

theorem stripPat_head_ne {p c : Char} (ps cs : List Char) (h : p ≠ c) :
    stripPat (p :: ps) (c :: cs) = none := by
  simp [stripPat, h]

theorem stripPat_self : ∀ l s : List Char, stripPat l (l ++ s) = some s := by
  intro l
  induction l with
  | nil => intro s; rfl
  | cons c l' ih => intro s; simp [stripPat, ih]

theorem replGo_nil (p : Char) (ps rep : List Char) : replGo p ps rep [] = [] := by
  simp [replGo]

theorem replGo_cons_none {p c : Char} {ps cs : List Char} (rep : List Char)
    (h : stripPat (p :: ps) (c :: cs) = none) :
    replGo p ps rep (c :: cs) = c :: replGo p ps rep cs := by
  simp only [replGo]
  split
  · next rest heq => rw [h] at heq; cases heq
  · rfl

theorem replGo_cons_some {p c : Char} {ps cs rest : List Char} (rep : List Char)
    (h : stripPat (p :: ps) (c :: cs) = some rest) :
    replGo p ps rep (c :: cs) = rep ++ replGo p ps rep rest := by
  simp only [replGo]
  split
  · next rest2 heq =>
    rw [h] at heq
    injection heq with heq
    rw [heq]
  · next heq => rw [h] at heq; cases heq

/-- A block of characters none of which can start the pattern is copied
through the replacement scan verbatim. -/
theorem replGo_skip_clean (p : Char) (ps rep : List Char) :
    ∀ l t : List Char, (∀ c ∈ l, c ≠ p) → replGo p ps rep (l ++ t) = l ++ replGo p ps rep t := by
  intro l
  induction l with
  | nil => intro t _; rfl
  | cons c l' ih =>
    intro t hcl
    have hc : p ≠ c := fun h => (hcl c (by simp)) h.symm
    rw [List.cons_append, replGo_cons_none rep (stripPat_head_ne _ _ hc), ih t
      (fun d hd => hcl d (by simp [hd]))]
    rfl

theorem replGo_clean_id (p : Char) (ps rep : List Char) (s : List Char)
    (h : ∀ c ∈ s, c ≠ p) : replGo p ps rep s = s := by
  have := replGo_skip_clean p ps rep s [] h
  simpa [replGo_nil] using this

/-- If the pattern does not occur in the input, the replacement scan is the
identity. -/
theorem replGo_not_occurs (p : Char) (ps rep : List Char) :
    ∀ s : List Char, occursIn (p :: ps) s = false → replGo p ps rep s = s := by
  intro s
  induction s with
  | nil => intro _; exact replGo_nil p ps rep
  | cons c cs ih =>
    intro h
    simp only [occursIn, Bool.or_eq_false_iff] at h
    obtain ⟨h1, h2⟩ := h
    have hnone : stripPat (p :: ps) (c :: cs) = none := by
      cases hs : stripPat (p :: ps) (c :: cs) with
      | none => rfl
      | some r => rw [hs] at h1; simp at h1
    rw [replGo_cons_none rep hnone, ih h2]

theorem wfstr_of_clean (ks : List String) :
    ∀ s : List Char, (∀ c ∈ s, c ≠ dollarC) → WFStr ks s := by
  intro s
  induction s with
  | nil => intro _; exact .nil
  | cons c cs ih =>
    intro h
    exact .lit (h c (by simp)) (ih fun d hd => h d (by simp [hd]))

theorem wfstr_append_clean (ks : List String) (v : List Char)
    (hv : ∀ c ∈ v, c ≠ dollarC) :
    ∀ t : List Char, WFStr ks t → WFStr ks (v ++ t) := by
  induction v with
  | nil => intro t ht; exact ht
  | cons c v' ih =>
    intro t ht
    exact .lit (hv c (by simp)) (ih (fun d hd => hv d (by simp [hd])) t ht)

theorem wfstr_nil_clean : ∀ {s : List Char}, WFStr [] s → ∀ c ∈ s, c ≠ dollarC := by
  intro s h
  induction h with
  | nil => simp
  | lit hne _ ih =>
    intro c hc
    rcases List.mem_cons.1 hc with h | h
    · exact h ▸ hne
    · exact ih c h
  | tok hk _ _ => exact absurd hk (List.not_mem_nil _)

/-- Two distinct keys free of the closing brace cannot match each other's
token tails. -/
theorem stripPat_brack_ne : ∀ p q : List Char, p ≠ q →
    (∀ c ∈ p, c ≠ cbrC) → (∀ c ∈ q, c ≠ cbrC) →
    ∀ cs : List Char, stripPat (p ++ [cbrC]) (q ++ cbrC :: cs) = none := by
  intro p
  induction p with
  | nil =>
    intro q hne hp hq cs
    cases q with
    | nil => exact (hne rfl).elim
    | cons c q' =>
      have hc : cbrC ≠ c := fun h => (hq c (by simp)) h.symm
      simp [stripPat, hc]
  | cons a p' ih =>
    intro q hne hp hq cs
    cases q with
    | nil =>
      have ha : a ≠ cbrC := hp a (by simp)
      simp [stripPat, ha]
    | cons b q' =>
      by_cases hab : a = b
      · subst hab
        simp only [List.cons_append, stripPat, if_pos rfl]
        exact ih q' (fun h => hne (by rw [h])) (fun c hc => hp c (by simp [hc]))
          (fun c hc => hq c (by simp [hc])) cs
      · simp [stripPat, hab]

/-- One `str.replace` pass for key `k` on a string well-formed over
`k :: ks` eliminates exactly the `${k}` tokens (replacing them by the
clean value `v`) and leaves a string well-formed over `ks`. -/
theorem wfstr_replace_step (k : String) (ks : List String) (v : List Char)
    (hk : cleanKey k) (hkni : k ∉ ks) (hksc : ∀ k2 ∈ ks, cleanKey k2)
    (hv : ∀ c ∈ v, c ≠ dollarC) :
    ∀ s : List Char, WFStr (k :: ks) s →
      WFStr ks (replGo dollarC (obrC :: (k.data ++ [cbrC])) v s) := by
  intro s h
  induction h with
  | nil => rw [replGo_nil]; exact .nil
  | lit hne hcs ih =>
    rw [replGo_cons_none v (stripPat_head_ne _ _ (fun h2 => hne h2.symm))]
    exact .lit hne ih
  | @tok k2 cs hk2 hcs ih =>
    by_cases hkeq : k2 = k
    · subst hkeq
      have hsplit : dollarC :: obrC :: (k2.data ++ cbrC :: cs) =
          (dollarC :: obrC :: (k2.data ++ [cbrC])) ++ cs := by simp
      have hstrip : stripPat (dollarC :: obrC :: (k2.data ++ [cbrC]))
          (dollarC :: obrC :: (k2.data ++ cbrC :: cs)) = some cs := by
        rw [hsplit]
        exact stripPat_self _ _
      rw [show dollarC :: obrC :: (k2.data ++ cbrC :: cs) =
        dollarC :: (obrC :: (k2.data ++ cbrC :: cs)) from rfl] at hstrip ⊢
      rw [replGo_cons_some v hstrip]
      exact wfstr_append_clean ks v hv _ ih
    · have hk2m : k2 ∈ ks := by
        rcases List.mem_cons.1 hk2 with h | h
        · exact (hkeq h).elim
        · exact h
      have hdata : k.data ≠ k2.data := by
        intro hd
        exact hkeq ((String.ext hd).symm)
      have hstrip : stripPat (dollarC :: obrC :: (k.data ++ [cbrC]))
          (dollarC :: obrC :: (k2.data ++ cbrC :: cs)) = none := by
        simp only [stripPat, if_pos rfl]
        exact stripPat_brack_ne k.data k2.data hdata
          (fun c hc => (hk c hc).2.2) (fun c hc => (hksc k2 hk2m c hc).2.2) cs
      rw [replGo_cons_none v hstrip]
      have hobr : dollarC ≠ obrC := by decide
      rw [replGo_cons_none v (stripPat_head_ne _ _ hobr)]
      rw [replGo_skip_clean dollarC _ v k2.data (cbrC :: cs)
        (fun c hc => (hksc k2 hk2m c hc).1)]
      have hcbr : dollarC ≠ cbrC := by decide
      rw [replGo_cons_none v (stripPat_head_ne _ _ hcbr)]
      exact .tok hk2m ih

theorem substAll_data : ∀ (repl : List (String × String)) (s : String),
    (repl.foldl (fun acc kv => pyReplace acc (varTok kv.1) kv.2) s).data =
      substAllChars repl s.data := by
  intro repl
  induction repl with
  | nil => intro s; rfl
  | cons kv rest ih =>
    intro s
    simp only [substAllChars, List.foldl_cons]
    exact ih (pyReplace s (varTok kv.1) kv.2)

/-- After substituting every key of a clean replacement map into a
well-formed string, no dollar character remains. -/
theorem substAll_clean (repl : List (String × String)) :
    ∀ s : List Char,
    (repl.map Prod.fst).Nodup → (∀ kv ∈ repl, cleanKey kv.1) →
    (∀ kv ∈ repl, cleanVal kv.2) → WFStr (repl.map Prod.fst) s →
    ∀ c ∈ substAllChars repl s, c ≠ dollarC := by
  induction repl with
  | nil =>
    intro s _ _ _ hwf
    exact wfstr_nil_clean hwf
  | cons kv rest ih =>
    intro s hnd hck hcv hwf
    simp only [List.map_cons, List.nodup_cons] at hnd
    have hksc : ∀ k2 ∈ rest.map Prod.fst, cleanKey k2 := by
      intro k2 hk2
      obtain ⟨kv2, hkv2, hk2eq⟩ := List.mem_map.1 hk2
      exact hk2eq ▸ hck kv2 (by simp [hkv2])
    have hstep : WFStr (rest.map Prod.fst)
        (replGo dollarC (obrC :: (kv.1.data ++ [cbrC])) kv.2.data s) :=
      wfstr_replace_step kv.1 (rest.map Prod.fst) kv.2.data
        (hck kv (by simp)) hnd.1 hksc (hcv kv (by simp)) s hwf
    have := ih (replGo dollarC (obrC :: (kv.1.data ++ [cbrC])) kv.2.data s) hnd.2
      (fun kv2 h2 => hck kv2 (by simp [h2])) (fun kv2 h2 => hcv kv2 (by simp [h2])) hstep
    simpa only [substAllChars, List.foldl_cons] using this

/-- On a string with no dollar character, the substitution fold is the
identity. -/
theorem substAll_clean_id (repl : List (String × String)) :
    ∀ s : List Char, (∀ c ∈ s, c ≠ dollarC) → substAllChars repl s = s := by
  induction repl with
  | nil => intro s _; rfl
  | cons kv rest ih =>
    intro s h
    simp only [substAllChars, List.foldl_cons]
    have hid : replChars (varTok kv.1).data kv.2.data s = s :=
      replGo_clean_id dollarC (obrC :: (kv.1.data ++ [cbrC])) kv.2.data s h
    rw [hid]
    exact ih s h

/-- A string in which no key's token occurs passes through the fold
verbatim. -/
theorem foldl_not_occurs : ∀ (repl : List (String × String)) (s : String),
    (∀ kv ∈ repl, occursIn (varTok kv.1).data s.data = false) →
    repl.foldl (fun acc kv => pyReplace acc (varTok kv.1) kv.2) s = s := by
  intro repl
  induction repl with
  | nil => intro s _; rfl
  | cons kv rest ih =>
    intro s h
    have hid : pyReplace s (varTok kv.1) kv.2 = s := by
      have := replGo_not_occurs dollarC (obrC :: (kv.1.data ++ [cbrC])) kv.2.data
        s.data (h kv (by simp))
      apply String.ext
      exact this
    simp only [List.foldl_cons, hid]
    exact ih s (fun kv2 h2 => h kv2 (by simp [h2]))

theorem noDollarVL_eq : ∀ l : List Value, noDollarVL l = l.all noDollarV := by
  intro l
  induction l with
  | nil => simp [noDollarVL]
  | cons x xs ih => simp [noDollarVL, ih]

theorem noDollarVM_eq : ∀ l : List (String × Value),
    noDollarVM l = l.all (fun e => noDollarV e.2) := by
  intro l
  induction l with
  | nil => simp [noDollarVM]
  | cons e es ih => simp [noDollarVM, ih]

theorem replaceVarsL_eq_map (repl : List (String × String)) :
    ∀ l : List Value, replaceVarsL repl l = l.map (replace_vars repl) := by
  intro l
  induction l with
  | nil => simp [replaceVarsL]
  | cons x xs ih => simp [replaceVarsL, ih]

theorem replaceVarsM_eq_map (repl : List (String × String)) :
    ∀ l : List (String × Value),
      replaceVarsM repl l = l.map (fun e => (e.1, replace_vars repl e.2)) := by
  intro l
  induction l with
  | nil => simp [replaceVarsM]
  | cons e es ih => simp [replaceVarsM, ih]

theorem map_congr_mem {α β : Type} (f g : α → β) :
    ∀ l : List α, (∀ a ∈ l, f a = g a) → l.map f = l.map g := by
  intro l
  induction l with
  | nil => intro _; rfl
  | cons a l' ih =>
    intro h
    simp only [List.map_cons, h a (by simp), List.cons.injEq, true_and]
    exact ih (fun b hb => h b (by simp [hb]))

/-- Claim C6: the variable resolver rewrites strings by one sequential
`str.replace` per map entry in insertion order (replacing every occurrence
of that entry's `${KEY}` token); sequences and mappings are rebuilt
recursively preserving container kind, length and key order; non-string
scalars pass through unchanged; a string containing no token of any
present key — in particular one whose only tokens name absent keys — is
left verbatim; a token at the head of a string is genuinely replaced by
the mapped value; and the two spec examples hold. -/
theorem replace_vars_spec (repl : List (String × String)) (s : String) (n : Int)
    (b : Bool) (xs : List Value) (es : List (String × Value)) :
    replace_vars repl (.str s) =
      .str (repl.foldl (fun acc kv => pyReplace acc (varTok kv.1) kv.2) s)
    ∧ replace_vars repl (.seq xs) = .seq (xs.map (replace_vars repl))
    ∧ replace_vars repl (.map es) =
      .map (es.map (fun e => (e.1, replace_vars repl e.2)))
    ∧ replace_vars repl (.int n) = .int n
    ∧ replace_vars repl (.bool b) = .bool b
    ∧ replace_vars repl .null = .null
    ∧ ((∀ kv ∈ repl, occursIn (varTok kv.1).data s.data = false) →
        replace_vars repl (.str s) = .str s)
    ∧ (∀ (k v : String) (t : List Char),
        pyReplace ⟨(varTok k).data ++ t⟩ (varTok k) v =
          ⟨v.data ++ replChars (varTok k).data v.data t⟩)
    ∧ replace_vars [("ROOT", "bar")] (.str "${ROOT}/foo") = .str "bar/foo"
    ∧ replace_vars [("ROOT", "bar")] (.str "${MISSING}") = .str "${MISSING}" := by
  refine ⟨by simp [replace_vars], ?_, ?_, by simp [replace_vars], by simp [replace_vars],
    by simp [replace_vars], ?_, ?_, ?_, ?_⟩
  · simp [replace_vars, replaceVarsL_eq_map]
  · simp [replace_vars, replaceVarsM_eq_map]
  · intro h
    simp only [replace_vars, Value.str.injEq]
    exact foldl_not_occurs repl s h
  · intro k v t
    apply String.ext
    show replGo dollarC (obrC :: (k.data ++ [cbrC])) v.data
        (dollarC :: ((obrC :: (k.data ++ [cbrC])) ++ t)) =
      v.data ++ replGo dollarC (obrC :: (k.data ++ [cbrC])) v.data t
    exact replGo_cons_some v.data
      (stripPat_self (dollarC :: (obrC :: (k.data ++ [cbrC]))) t)
  · simp [replace_vars, pyReplace, replChars, replGo, stripPat, varTok, dollarC, obrC, cbrC]
  · simp [replace_vars, pyReplace, replChars, replGo, stripPat, varTok, dollarC, obrC, cbrC]

/-- Witness for C6 at the spec's unresolved-token example: with `MISSING`
absent from the map, the token passes through verbatim. -/
theorem replace_vars_spec_witness :
    replace_vars [("ROOT", "bar")] (.str "${MISSING}") = .str "${MISSING}" :=
  (replace_vars_spec [("ROOT", "bar")] "${MISSING}" 0 true [] []).2.2.2.2.2.2.1
    (by decide)

/-- Counterexample for C7 as stated: with the complete replacement map
{A: "1${A}"} (A is the only key referenced by the value), the resolver is
not idempotent — a second pass changes "1${A}" to "11${A}" — and a ${...}
token remains after the first pass. -/
theorem replace_vars_idem_cex :
    replace_vars [("A", "1${A}")] (.str "${A}") = .str "1${A}"
    ∧ replace_vars [("A", "1${A}")] (replace_vars [("A", "1${A}")] (.str "${A}")) =
        .str "11${A}"
    ∧ Value.str "11${A}" ≠ Value.str "1${A}"
    ∧ occursIn (varTok "A").data ("1${A}").data = true := by
  refine ⟨?_, ?_, by simp, by decide⟩
  · simp [replace_vars, pyReplace, replChars, replGo, stripPat, varTok, dollarC, obrC, cbrC]
  · simp [replace_vars, pyReplace, replChars, replGo, stripPat, varTok, dollarC, obrC, cbrC]

/-- Claim C7 (amended): variable substitution is idempotent and leaves no
token, provided the replacement map cannot reintroduce tokens: keys are
distinct and free of the delimiter characters, values contain no dollar
character, and every dollar in the value's strings opens a complete
`${KEY}` token for a KEY present in the map (`WFV`).  Then a second pass
is a no-op and no dollar character — hence no `${...}` token — remains in
any substituted string (mapping keys and set elements are never
substituted). -/
theorem replace_vars_idem (repl : List (String × String)) (v : Value)
    (hnd : (repl.map Prod.fst).Nodup)
    (hck : ∀ kv ∈ repl, cleanKey kv.1)
    (hcv : ∀ kv ∈ repl, cleanVal kv.2)
    (hwf : WFV (repl.map Prod.fst) v) :
    replace_vars repl (replace_vars repl v) = replace_vars repl v
    ∧ noDollarV (replace_vars repl v) = true := by
  induction hwf with
  | @str s hs =>
    have hclean : ∀ c ∈ substAllChars repl s.data, c ≠ dollarC :=
      substAll_clean repl s.data hnd hck hcv hs
    have hdata : (repl.foldl (fun acc kv => pyReplace acc (varTok kv.1) kv.2) s).data =
        substAllChars repl s.data := substAll_data repl s
    constructor
    · simp only [replace_vars, Value.str.injEq]
      apply String.ext
      rw [substAll_data, hdata]
      exact substAll_clean_id repl _ hclean
    · simp only [replace_vars, noDollarV]
      rw [List.all_eq_true]
      intro c hc
      rw [hdata] at hc
      simpa using hclean c hc
  | int n => exact ⟨by simp [replace_vars], by simp [replace_vars, noDollarV]⟩
  | bool b => exact ⟨by simp [replace_vars], by simp [replace_vars, noDollarV]⟩
  | null => exact ⟨by simp [replace_vars], by simp [replace_vars, noDollarV]⟩
  | @set xs hxs =>
    constructor
    · simp [replace_vars]
    · simp only [replace_vars, noDollarV, noDollarVL_eq]
      rw [List.all_eq_true]
      exact hxs
  | @seq xs hxs ih =>
    constructor
    · simp only [replace_vars, replaceVarsL_eq_map, List.map_map, Value.seq.injEq]
      apply map_congr_mem
      intro x hx
      exact (ih x hx).1
    · simp only [replace_vars, noDollarV, noDollarVL_eq, replaceVarsL_eq_map]
      rw [List.all_eq_true]
      intro x hx
      obtain ⟨x0, hx0, hx0eq⟩ := List.mem_map.1 hx
      exact hx0eq ▸ (ih x0 hx0).2
  | @map es hes ih =>
    constructor
    · simp only [replace_vars, replaceVarsM_eq_map, List.map_map, Value.map.injEq]
      apply map_congr_mem
      intro e he
      simp only [Function.comp]
      rw [(ih e he).1]
    · simp only [replace_vars, noDollarV, noDollarVM_eq, replaceVarsM_eq_map]
      rw [List.all_eq_true]
      intro e he
      obtain ⟨e0, he0, he0eq⟩ := List.mem_map.1 he
      rw [← he0eq]
      exact (ih e0 he0).2

/-- Witness for C7's amended theorem on the spec's example string. -/
theorem replace_vars_idem_witness :
    replace_vars [("ROOT", "bar")]
        (replace_vars [("ROOT", "bar")] (.str "${ROOT}/foo")) =
      replace_vars [("ROOT", "bar")] (.str "${ROOT}/foo")
    ∧ noDollarV (replace_vars [("ROOT", "bar")] (.str "${ROOT}/foo")) = true :=
  replace_vars_idem [("ROOT", "bar")] (.str "${ROOT}/foo")
    (by decide) (by decide) (by decide)
    (WFV.str (by
      have h : ("${ROOT}/foo").data =
          dollarC :: obrC :: (("ROOT").data ++ cbrC :: ("/foo").data) := by decide
      rw [h]
      exact WFStr.tok (by decide) (wfstr_of_clean _ _ (by decide))))

/-- Claim C10: merge's type-mismatch detection is one-directional.  A
scalar in the accumulator is silently overwritten by a list, set or dict
from a later source, while the reverse pairings raise the `ValueError`s. -/
theorem merge_one_directional :
    merge [[("qq", Value.int 1)], [("qq", Value.seq [.int 2])]] =
      .ok [("qq", Value.seq [.int 2])]
    ∧ merge [[("qq", Value.int 1)], [("qq", Value.set [.int 2])]] =
      .ok [("qq", Value.set [.int 2])]
    ∧ merge [[("qq", Value.int 1)], [("qq", Value.map [("x", .int 1)])]] =
      .ok [("qq", Value.map [("x", .int 1)])]
    ∧ merge [[("qq", Value.seq [.int 1])], [("qq", Value.int 2)]] = .error listNonListMsg
    ∧ merge [[("qq", Value.set [.int 1])], [("qq", Value.int 2)]] = .error setNonSetMsg
    ∧ merge [[("qq", Value.map [("x", .int 1)])], [("qq", Value.int 2)]] =
      .error dictNonDictMsg := by
  refine ⟨?_, ?_, ?_, ?_, ?_, ?_⟩ <;> simp [merge, mergeGo, mergeTwo, lookupD, setKey]

theorem normalizePaths_eq_map (d : String) :
    ∀ l : List String, normalizePaths d l = l.map (normPath d) := by
  intro l
  induction l with
  | nil => rfl
  | cons p ps ih => simp [normalizePaths, ih]

/-- Claim C9: normalization joins every non-absolute path-valued field
onto the input directory and leaves absolute paths unchanged; the
list-valued path fields are normalized element-wise preserving order and
length; and an empty `import_proto_path` becomes `[input_dir]`. -/
theorem normalize_artifact_config_spec (a : Artifact) (d : String) :
    (isabs a.service_yaml = true →
      (normalize_artifact_config a d).service_yaml = a.service_yaml)
    ∧ (isabs a.service_yaml = false →
      (normalize_artifact_config a d).service_yaml = pathJoin d a.service_yaml)
    ∧ (isabs a.gapic_yaml = true →
      (normalize_artifact_config a d).gapic_yaml = a.gapic_yaml)
    ∧ (isabs a.gapic_yaml = false →
      (normalize_artifact_config a d).gapic_yaml = pathJoin d a.gapic_yaml)
    ∧ (a.import_proto_path = [] →
      (normalize_artifact_config a d).import_proto_path = [d])
    ∧ (a.import_proto_path ≠ [] →
      (normalize_artifact_config a d).import_proto_path =
        a.import_proto_path.map (normPath d))
    ∧ (normalize_artifact_config a d).src_proto_paths =
        a.src_proto_paths.map (normPath d)
    ∧ (normalize_artifact_config a d).src_proto_paths.length =
        a.src_proto_paths.length
    ∧ (a.import_proto_path ≠ [] →
      (normalize_artifact_config a d).import_proto_path.length =
        a.import_proto_path.length)
    ∧ (∀ p, isabs p = true → normPath d p = p)
    ∧ (∀ p, isabs p = false → normPath d p = pathJoin d p) := by
  by_cases h1 : isabs a.service_yaml = true <;>
    by_cases h2 : isabs a.gapic_yaml = true <;>
      by_cases h3 : a.import_proto_path = [] <;>
        simp [normalize_artifact_config, normPath, h1, h2, h3, normalizePaths_eq_map] <;>
          exact ⟨fun p hT hF => absurd hT (by simp [hF]),
            fun p hF hT => absurd hT (by simp [hF])⟩

/-- Witness for C9 at the spec's example: a relative service_yaml joined
onto input_dir /x yields /x/a/b.yaml; the empty import_proto_path defaults
to [input_dir]. -/
theorem normalize_artifact_config_witness :
    (normalize_artifact_config { service_yaml := "a/b.yaml" } "/x").service_yaml =
      pathJoin "/x" "a/b.yaml"
    ∧ pathJoin "/x" "a/b.yaml" = "/x/a/b.yaml"
    ∧ (normalize_artifact_config { service_yaml := "a/b.yaml" } "/x").import_proto_path =
      ["/x"] :=
  ⟨(normalize_artifact_config_spec { service_yaml := "a/b.yaml" } "/x").2.1 (by decide),
   by decide,
   (normalize_artifact_config_spec
     { service_yaml := "a/b.yaml" } "/x").2.2.2.2.1 (by decide)⟩

theorem checkTargets_none (aname : String) :
    ∀ (ts : List PublishTarget) (seen : List String),
    (ts.map PublishTarget.name).Nodup → (∀ t ∈ ts, t.name ∉ seen) →
    checkTargets aname seen ts = none := by
  intro ts
  induction ts with
  | nil => intro seen _ _; rfl
  | cons t rest ih =>
    intro seen hnd hdisj
    simp only [List.map_cons, List.nodup_cons] at hnd
    have hne : t.name ∉ seen := hdisj t (by simp)
    simp only [checkTargets, if_neg hne]
    apply ih (t.name :: seen) hnd.2
    intro t2 h2
    simp only [List.mem_cons]
    push_neg
    refine ⟨?_, hdisj t2 (by simp [h2])⟩
    intro heq
    exact hnd.1 (heq ▸ List.mem_map_of_mem PublishTarget.name h2)

/-- When the artifact names contain a duplicate and no artifact has an
internally duplicated publish-target name, the scan reports the
duplicate-artifact message for a name that occurs at least twice. -/
theorem validateGo_dup : ∀ (arts : List Artifact) (seen : List String),
    seen.Nodup →
    (∀ a ∈ arts, (a.publish_targets.map PublishTarget.name).Nodup) →
    ¬ (seen ++ arts.map Artifact.name).Nodup →
    ∃ n, validateGo seen arts = some (dupArtifactMsg n)
      ∧ 2 ≤ (seen ++ arts.map Artifact.name).count n := by
  intro arts
  induction arts with
  | nil =>
    intro seen hs _ hdup
    simp only [List.map_nil, List.append_nil] at hdup
    exact absurd hs hdup
  | cons a rest ih =>
    intro seen hs htg hdup
    by_cases hmem : a.name ∈ seen
    · refine ⟨a.name, by simp [validateGo, hmem], ?_⟩
      rw [List.count_append]
      have hc1 : 0 < seen.count a.name := List.count_pos_iff.2 hmem
      have hc2 : 0 < ((a :: rest).map Artifact.name).count a.name := by
        simp [List.count_cons_self]
      omega
    · have hct := checkTargets_none a.name a.publish_targets [] (htg a (by simp))
        (by simp)
      have hs' : (a.name :: seen).Nodup := List.nodup_cons.2 ⟨hmem, hs⟩
      have hperm : ((a.name :: seen) ++ rest.map Artifact.name).Perm
          (seen ++ (a :: rest).map Artifact.name) := by
        simp only [List.map_cons, List.cons_append]
        exact List.perm_middle.symm
      have hdup' : ¬ ((a.name :: seen) ++ rest.map Artifact.name).Nodup := by
        intro h
        exact hdup (hperm.nodup h)
      obtain ⟨n, hval, hcount⟩ := ih (a.name :: seen) hs'
        (fun a2 h2 => htg a2 (by simp [h2])) hdup'
      refine ⟨n, by simp [validateGo, hmem, hct, hval], ?_⟩
      calc 2 ≤ ((a.name :: seen) ++ rest.map Artifact.name).count n := hcount
        _ = (seen ++ (a :: rest).map Artifact.name).count n := hperm.count_eq n

/-- Claim C8 (amended): a Config with two artifacts of the same name fails
to load with a `ValueError`; the first violation in scan order is
reported, so whenever no artifact also has an internally duplicated
publish-target name, the message is the duplicate-artifact one naming a
name that occurs at least twice in the artifact list. -/
theorem read_artman_config_dup_name (cfg : Config)
    (hdup : ¬ (cfg.artifacts.map Artifact.name).Nodup)
    (htargets : ∀ a ∈ cfg.artifacts,
      (a.publish_targets.map PublishTarget.name).Nodup) :
    ∃ n, read_artman_config cfg = .error (dupArtifactMsg n)
      ∧ 2 ≤ (cfg.artifacts.map Artifact.name).count n := by
  obtain ⟨n, h1, h2⟩ := validateGo_dup cfg.artifacts [] (by simp) htargets
    (by simpa using hdup)
  refine ⟨n, ?_, by simpa using h2⟩
  simp [read_artman_config, validate_artman_config, h1]

/-- Witness for C8's amended theorem. -/
theorem read_artman_config_dup_name_witness :
    ∃ n, read_artman_config dupCfg = .error (dupArtifactMsg n)
      ∧ 2 ≤ (dupCfg.artifacts.map Artifact.name).count n :=
  read_artman_config_dup_name dupCfg (by decide) (by decide)

/-- Counterexample for C8 as stated: this Config contains two artifacts
named "zz", yet loading reports the duplicate-publish-target message for
"t" in "a" (the first violation in scan order), and the name "zz" does not
occur anywhere in that error message. -/
theorem read_artman_config_dup_name_cex :
    read_artman_config dupTargetCfg = .error (dupTargetMsg "t" "a")
    ∧ occursIn ("zz").data ((dupTargetMsg "t" "a")).data = false := by
  exact ⟨by decide, by decide⟩

theorem findArtifact_split (common : Artifact) (aname input_dir : String) :
    ∀ (pre : List Artifact) (a : Artifact) (post : List Artifact),
    a.name = aname → (∀ b ∈ pre, b.name ≠ aname) →
    findArtifact common aname input_dir (pre ++ a :: post) =
      some (normalize_artifact_config (common.mergeFrom a) input_dir) := by
  intro pre
  induction pre with
  | nil =>
    intro a post hname _
    simp [findArtifact, hname]
  | cons b pre' ih =>
    intro a post hname hpre
    have hb : ¬ (b.name = aname) := hpre b (by simp)
    simp only [List.cons_append, findArtifact, if_neg hb]
    exact ih a post hname (fun b2 h2 => hpre b2 (by simp [h2]))

/-- Claim C1 (amended): the resolver starts from a copy of `config.common`
and overlays the matching artifact via protobuf `MergeFrom`: scalar fields
set (non-default) on the artifact replace the common value and unset ones
keep it, while repeated (list) fields on the artifact are APPENDED to the
corresponding common list — the common elements first — not a full
override; the first matching artifact is used and the merged result is
then path-normalized. -/
theorem load_artifact_config_overlay (cfg : Config) (aname input_dir : String)
    (a : Artifact) (pre post : List Artifact)
    (hsplit : cfg.artifacts = pre ++ a :: post)
    (hname : a.name = aname)
    (hpre : ∀ b ∈ pre, b.name ≠ aname)
    (hval : validate_artman_config cfg = none) :
    load_artifact_config cfg aname input_dir =
      .ok (normalize_artifact_config (cfg.common.mergeFrom a) input_dir)
    ∧ (cfg.common.mergeFrom a).src_proto_paths =
        cfg.common.src_proto_paths ++ a.src_proto_paths
    ∧ (cfg.common.mergeFrom a).import_proto_path =
        cfg.common.import_proto_path ++ a.import_proto_path
    ∧ (cfg.common.mergeFrom a).proto_deps = cfg.common.proto_deps ++ a.proto_deps
    ∧ (cfg.common.mergeFrom a).test_proto_deps =
        cfg.common.test_proto_deps ++ a.test_proto_deps
    ∧ (cfg.common.mergeFrom a).publish_targets =
        cfg.common.publish_targets ++ a.publish_targets
    ∧ (a.service_yaml ≠ "" → (cfg.common.mergeFrom a).service_yaml = a.service_yaml)
    ∧ (a.service_yaml = "" →
        (cfg.common.mergeFrom a).service_yaml = cfg.common.service_yaml)
    ∧ (a.name ≠ "" → (cfg.common.mergeFrom a).name = a.name) := by
  refine ⟨?_, by simp [Artifact.mergeFrom], by simp [Artifact.mergeFrom],
    by simp [Artifact.mergeFrom], by simp [Artifact.mergeFrom],
    by simp [Artifact.mergeFrom], ?_, ?_, ?_⟩
  · simp only [load_artifact_config, read_artman_config, hval]
    rw [hsplit, findArtifact_split cfg.common aname input_dir pre a post hname hpre]
  · intro h; simp [Artifact.mergeFrom, mergeStr, h]
  · intro h; simp [Artifact.mergeFrom, mergeStr, h]
  · intro h; simp [Artifact.mergeFrom, mergeStr, h]

/-- Witness for C1's amended theorem at a concrete Config. -/
theorem load_artifact_config_overlay_witness :
    load_artifact_config c1Cfg "x" "/in" =
      .ok (normalize_artifact_config (c1Cfg.common.mergeFrom c1Art) "/in")
    ∧ (c1Cfg.common.mergeFrom c1Art).src_proto_paths =
        c1Cfg.common.src_proto_paths ++ c1Art.src_proto_paths
    ∧ (c1Cfg.common.mergeFrom c1Art).import_proto_path =
        c1Cfg.common.import_proto_path ++ c1Art.import_proto_path
    ∧ (c1Cfg.common.mergeFrom c1Art).proto_deps =
        c1Cfg.common.proto_deps ++ c1Art.proto_deps
    ∧ (c1Cfg.common.mergeFrom c1Art).test_proto_deps =
        c1Cfg.common.test_proto_deps ++ c1Art.test_proto_deps
    ∧ (c1Cfg.common.mergeFrom c1Art).publish_targets =
        c1Cfg.common.publish_targets ++ c1Art.publish_targets
    ∧ (c1Art.service_yaml ≠ "" →
        (c1Cfg.common.mergeFrom c1Art).service_yaml = c1Art.service_yaml)
    ∧ (c1Art.service_yaml = "" →
        (c1Cfg.common.mergeFrom c1Art).service_yaml = c1Cfg.common.service_yaml)
    ∧ (c1Art.name ≠ "" → (c1Cfg.common.mergeFrom c1Art).name = c1Art.name) :=
  load_artifact_config_overlay c1Cfg "x" "/in" c1Art [] [] (by decide) (by decide)
    (by simp) (by decide)

/-- Counterexample for C1 as stated: with common src_proto_paths = ["/a"]
and the artifact entry's src_proto_paths = ["/b"], the resolver produces
["/a", "/b"] (protobuf MergeFrom appends repeated fields), not the full
override ["/b"] that the claim describes. -/
theorem load_artifact_config_cex :
    (load_artifact_config c1Cfg "x" "/in").map Artifact.src_proto_paths =
      .ok ["/a", "/b"]
    ∧ (Except.ok ["/a", "/b"] ≠ (.ok ["/b"] : Except String (List String))) := by
  exact ⟨by decide, by decide⟩

/-- Claim C2 (code bug): on a `paths` list mixing a bare destination
string with a structured {src, dest, artifact} entry, the converter
appends only the structured mapping — the bare string's mapping has its
`dest` set and is then discarded because `result.append(mapping)` sits
inside the `else` branch (converter.py line 195), so the output has one
mapping for a two-element input. -/
theorem compute_directory_mappings_drops_bare :
    compute_directory_mappings
        [.str "generated/java", .map [("src", .str "a"), ("dest", .str "b")]] =
      .ok [{ src := "a", dest := "b", name := "" }]
    ∧ ([Value.str "generated/java",
        .map [("src", .str "a"), ("dest", .str "b")]].length = 2)
    ∧ (Except.map List.length
        (compute_directory_mappings
          [.str "generated/java", .map [("src", .str "a"), ("dest", .str "b")]]) =
        .ok 1) := by
  exact ⟨by decide, by decide, by decide⟩

/-- Counterexample for C3 as stated: a legacy document whose `common`
section is present but empty — missing every common field the spec lists,
api_name included — converts successfully, defaulting the scalar fields to
"unspecified" and still producing the java artifact; no
missing-required-field failure occurs. -/
theorem convert_missing_field_cex :
    convert c3Doc =
      .ok { common := { api_name := "unspecified", api_version := "unspecified",
                        organization_name := "unspecified" },
            artifacts := [{ name := "java_gapic", language := .JAVA,
                            type := .GAPIC }] } := by
  decide

/-- Claim C3 (amended): the only field the converter requires is the
`common` section itself; a legacy document without the `common` key makes
conversion abort with the printed message naming `common` and exit status
2, and — since this holds for every such document regardless of its
artifact sections — the check precedes any artifact processing.  Fields
missing inside `common` are defaulted, not errors. -/
theorem convert_missing_common (legacy : Dict)
    (h : lookupD legacy "common" = none) :
    convert legacy = .error (.exitTwo commonRequiredMsg)
    ∧ occursIn ("common").data commonRequiredMsg.data = true := by
  refine ⟨?_, by decide⟩
  simp [convert, keyIn, h]

/-- Witness for C3's amended theorem: a document with only a java section
exits eagerly with the message naming `common`. -/
theorem convert_missing_common_witness :
    convert [("java", .map [("x", .str "y")])] = .error (.exitTwo commonRequiredMsg)
    ∧ occursIn ("common").data commonRequiredMsg.data = true :=
  convert_missing_common [("java", .map [("x", .str "y")])] (by rfl)

end Artman
